import Mathlib

/-!
Verification of the lexical front end of the `akhamoth` repository:
a shallow embedding of `src/akhamoth/src/source.rs` (spans, source files,
the source map) and `src/akhamoth/src/lexer.rs` (the token scanner), with
theorems about the behaviour of these functions.

Modelling conventions:
* Text is a `List Char`.  Byte offsets of the source are modelled as
  character offsets: every offset the Rust code manipulates lies on a
  character boundary, and every concrete input in this development is
  ASCII, where the two notions coincide.
* `u32` values are `Nat` with an explicit `% 2 ^ 32` at the operations
  where wrap-around can occur (`SourceFile.end_position`).  Lexer
  positions are plain `Nat`: the address space is capped at `2 ^ 32`
  when files are loaded, before the lexer ever runs.
* Functions that can panic in Rust (out-of-bounds slicing or indexing,
  integer underflow of `usize`) return `Option`, with `none` modelling
  the panic.
* The Unicode `XID_Start` / `XID_Continue` tables of the `unicode_xid`
  crate are kept abstract: the scanner is parametric in the two
  predicates, and theorems about concrete inputs instantiate them with
  `asciiXidStart` / `asciiXidCont`, which agree with the Unicode tables
  on the whole ASCII range (all concrete inputs here are ASCII).
-/

deriving instance DecidableEq for Except

/-- `char::is_whitespace` of Rust: the Unicode `White_Space` property,
which is a fixed list of 25 code points. -/
def rustIsWhitespace (c : Char) : Bool :=
  c = ' ' || ('\x09' ≤ c && c ≤ '\x0d') || c = '\x85' || c = '\xa0' ||
  c = Char.ofNat 0x1680 || (Char.ofNat 0x2000 ≤ c && c ≤ Char.ofNat 0x200a) ||
  c = Char.ofNat 0x2028 || c = Char.ofNat 0x2029 || c = Char.ofNat 0x202f ||
  c = Char.ofNat 0x205f || c = Char.ofNat 0x3000

/-- `unicode_xid` `is_xid_start` restricted to ASCII, where `XID_Start`
is exactly the letters.  Used to instantiate the abstract predicate for
the concrete (all-ASCII) inputs of this development. -/
def asciiXidStart (c : Char) : Bool := c.isAlpha

/-- `unicode_xid` `is_xid_continue` restricted to ASCII, where
`XID_Continue` is the letters, the digits and the underscore. -/
def asciiXidCont (c : Char) : Bool := c.isAlphanum || c = '_'

/-- `std::io::Error`, abstracted to a message. -/
structure IoError where
  msg : String
deriving DecidableEq, Repr

/-- `Span` of source.rs: a global byte offset `lo` plus a length. -/
structure Span where
  lo : Nat
  len : Nat
deriving DecidableEq, Repr

/-- `Span::new`. -/
def Span.new (lo len : Nat) : Span := ⟨lo, len⟩

/-- `SourceFile` of source.rs.  `lines` is the table of relative offsets
of each newline byte of `src`. -/
structure SourceFile where
  path : String
  src : List Char
  start_pos : Nat
  lines : List Nat
deriving DecidableEq, Repr

/-- The newline table built by `SourceFile::new`:
`src.bytes().enumerate().filter(b == newline).map(i)`. -/
def sourceFileLines (src : List Char) : List Nat :=
  (src.enum.filter (fun p => p.2 = '\n')).map (fun p => p.1)

/-- The `SourceFile` value built by `SourceFile::new` for text `src`
placed at `start_pos`. -/
def sourceFileOf (path : String) (src : List Char) (start_pos : Nat) : SourceFile :=
  ⟨path, src, start_pos, sourceFileLines src⟩

/-- `SourceFile::new`.  The file system read (`fs::read_to_string`) is
external input; it is passed in as `read`, the content or the I/O error
that the operating system produced. -/
def SourceFile.new (path : String) (read : Except IoError (List Char))
    (start_pos : Nat) : Except IoError SourceFile :=
  match read with
  | .error e => .error e
  | .ok src => .ok (sourceFileOf path src start_pos)

/-- `slice::partition_point`: for a slice partitioned by `p` (all `true`
elements before all `false` ones, which holds at every call site because
the lists involved are sorted) the binary search returns the length of
the maximal `true` prefix, which is what this computes. -/
def partitionPoint (p : α → Bool) : List α → Nat
  | [] => 0
  | x :: xs => if p x then partitionPoint p xs + 1 else 0

/-- `SourceFile::line_number`. -/
def SourceFile.line_number (f : SourceFile) (byte_offset : Nat) : Nat :=
  partitionPoint (fun x => x < byte_offset) f.lines + 1

/-- `2 ^ 32`, the size of the `u32` address space. -/
def u32Limit : Nat := 2 ^ 32

/-- `SourceFile::end_position`: `self.start_pos + self.src.len() as u32`.
The cast truncates to 32 bits and the `u32` addition wraps around (release
profile; a debug build would abort on overflow instead — noted where this
matters). -/
def SourceFile.end_position (f : SourceFile) : Nat :=
  (f.start_pos + f.src.length % u32Limit) % u32Limit

/-- `LoadError` of source.rs. -/
inductive LoadError where
  | io (e : IoError)
  | offsetOverflowError
deriving DecidableEq, Repr

/-- `SourceMap` of source.rs: the ordered collection of loaded files. -/
structure SourceMap where
  files : List SourceFile
deriving DecidableEq, Repr

/-- `SourceMap::load_file`.  The state is threaded explicitly: the
returned map is the (possibly unchanged) collection after the call.
`read` stands for the result of the file system read. -/
def SourceMap.load_file (sm : SourceMap) (path : String)
    (read : Except IoError (List Char)) :
    SourceMap × Except LoadError SourceFile :=
  let startRes : Except LoadError Nat :=
    match sm.files.getLast? with
    | some f =>
        -- `f.end_position().checked_add(1).ok_or(OffsetOverflowError)?`
        if f.end_position + 1 < u32Limit then .ok (f.end_position + 1)
        else .error .offsetOverflowError
    | none => .ok 0
  match startRes with
  | .error e => (sm, .error e)
  | .ok start_pos =>
    match SourceFile.new path read start_pos with
    | .error e => (sm, .error (.io e))
    | .ok file => (⟨sm.files ++ [file]⟩, .ok file)

/-- `SourceMap::lookup_source_file`.  `none` models the panic of
`lookup_source_file_idx` when `partition_point` returns `0` and the
`usize` subtraction `- 1` underflows (empty map, or an offset before the
first file). -/
def SourceMap.lookup_source_file (sm : SourceMap) (pos : Nat) : Option SourceFile :=
  let pp := partitionPoint (fun f => f.start_pos ≤ pos) sm.files
  if pp = 0 then none else sm.files.get? (pp - 1)

/-- `SourceMap::span_to_string`.  `none` models the panic of the slice
`src[lo..hi]` when `hi` is past the end of the file text. -/
def SourceMap.span_to_string (sm : SourceMap) (sp : Span) : Option (List Char) :=
  match sm.lookup_source_file sp.lo with
  | none => none
  | some file =>
    let lo := sp.lo - file.start_pos
    let hi := lo + sp.len
    if hi ≤ file.src.length then some ((file.src.drop lo).take sp.len)
    else none

/-- `Location` of source.rs. -/
structure Location where
  file : SourceFile
  line : Nat
  col : Nat
deriving DecidableEq, Repr

/-- `SourceMap::span_to_location`.  The column is
`(lo - file.lines[line - 2])` in the source, with `lo` the global
offset.  For `line = 1` the index `line - 2` underflows `usize` and the
access panics, modelled as `none`. -/
def SourceMap.span_to_location (sm : SourceMap) (sp : Span) : Option Location :=
  match sm.lookup_source_file sp.lo with
  | none => none
  | some file =>
    let offset := sp.lo - file.start_pos
    let line := file.line_number offset
    if h : 2 ≤ line ∧ line - 2 < file.lines.length then
      some ⟨file, line, sp.lo - file.lines.get ⟨line - 2, h.2⟩⟩
    else none

/-! ## lexer.rs -/

/-- `DelimKind` of lexer.rs. -/
inductive DelimKind where
  | paren
  | bracket
  | brace
deriving DecidableEq, Repr

/-- `Operator` of lexer.rs. -/
inductive Operator where
  | dot
  | arrow
  | fatArrow
  | equals
  | plus
  | minus
  | div
  | mul
  | percent
deriving DecidableEq, Repr

/-- `ParseIntError` of lexer.rs. -/
inductive ParseIntError where
  | empty
  | overflow
  | invalidDigit (c : Char) (base : Nat)
deriving DecidableEq, Repr

/-- `TokenInner` of lexer.rs.  String slices borrowed from the source
become `List Char`; the `i64` literal value becomes an `Int` kept within
the `i64` range by the checked arithmetic. -/
inductive TokenInner where
  | stringLiteral (contents : List Char) (unclosed : Bool)
  | intLiteral (val : Except ParseIntError Int)
  | identifier (s : List Char)
  | openDelim (k : DelimKind)
  | closeDelim (k : DelimKind)
  | pipe
  | comma
  | colon
  | semicolon
  | whitespace
  | operator (op : Operator)
  | comment (s : List Char)
  | unrecognized
deriving DecidableEq, Repr

/-- `Token` of lexer.rs. -/
structure Token where
  span : Span
  inner : TokenInner
deriving DecidableEq, Repr

/-- `Token::is_whitespace`. -/
def Token.is_whitespace (t : Token) : Bool := t.inner = TokenInner.whitespace

/-- `Cursor::peek`: the next character, or the null character at the end
of input (`unwrap_or` of the null character). -/
def peek (s : List Char) : Char := s.headD '\x00'

/-- `is_id_start` of lexer.rs, parametric in the `XID_Start` table. -/
def isIdStart (xidS : Char → Bool) (c : Char) : Bool := c = '_' || xidS c

/-- `is_id_continue` of lexer.rs, parametric in the `XID_Continue` table. -/
def isIdContinue (xidC : Char → Bool) (c : Char) : Bool := xidC c

/-- The punctuation list of `is_unknown` in lexer.rs (note that it also
contains the angle brackets, which no token recognizes). -/
def isUnknownPunct (c : Char) : Bool :=
  c = '"' || c = '/' || c = '|' || c = ':' || c = ';' || c = '(' || c = '[' ||
  c = '{' || c = ')' || c = ']' || c = '}' || c = '+' || c = '-' || c = '*' ||
  c = '=' || c = '.' || c = '%' || c = '<' || c = '>'

/-- `is_unknown` of lexer.rs. -/
def isUnknown (xidC : Char → Bool) (c : Char) : Bool :=
  !(rustIsWhitespace c || xidC c || isUnknownPunct c)

/-- Smallest `i64` value. -/
def i64Min : Int := -(2 ^ 63)

/-- Largest `i64` value. -/
def i64Max : Int := 2 ^ 63 - 1

/-- `i64::checked_mul`. -/
def checkedMul (a b : Int) : Option Int :=
  let r := a * b
  if i64Min ≤ r ∧ r ≤ i64Max then some r else none

/-- `i64::checked_add`. -/
def checkedAdd (a b : Int) : Option Int :=
  let r := a + b
  if i64Min ≤ r ∧ r ≤ i64Max then some r else none

/-- `char::to_digit`: digits and letters valued `0..=35`, valid when the
value is below the radix (the radix is always `2`, `8`, `10` or `16`
here). -/
def rustToDigit (base : Nat) (c : Char) : Option Nat :=
  let v : Nat :=
    if '0' ≤ c ∧ c ≤ '9' then c.toNat - '0'.toNat
    else if 'a' ≤ c ∧ c ≤ 'z' then c.toNat - 'a'.toNat + 10
    else if 'A' ≤ c ∧ c ≤ 'Z' then c.toNat - 'A'.toNat + 10
    else 99
  if v < base then some v else none

/-- The byte-to-value match inside the digit fold of `Cursor::number`
(`digit + 10 - letter a`, and so on; all bytes reaching it are ASCII
digit characters). -/
def digitCharVal (c : Char) : Nat :=
  if 'a' ≤ c ∧ c ≤ 'f' then c.toNat + 0xA - 'a'.toNat
  else if 'A' ≤ c ∧ c ≤ 'F' then c.toNat + 0xA - 'A'.toNat
  else c.toNat - '0'.toNat

/-- The digit fold of `Cursor::number`: checked multiply and add over the
consumed bytes, skipping separators, failing with `Overflow` when the
checked arithmetic fails. -/
def foldDigits (base : Nat) : Int → List Char → Except ParseIntError Int
  | val, [] => .ok val
  | val, c :: cs =>
    if c = '_' then foldDigits base val cs
    else
      match checkedMul val (base : Int) with
      | none => .error .overflow
      | some v =>
        match checkedAdd v (digitCharVal c : Int) with
        | none => .error .overflow
        | some v2 => foldDigits base v2 cs

/-- `Cursor::number`.  `source` is the remaining input at the start of
the token (so it begins with `first_char`); the returned list is the
remaining input after the literal.  The result is `none` for the
`to_digit(..).unwrap()` panic, which no call from `nextToken` can reach.

Note the source seeds the accumulator with the value of
`first_char` and then folds over `source[lo..len]`, a slice that for a
decimal literal (`lo = 0`) contains `first_char` again. -/
def number (xidC : Char → Bool) (source : List Char) (first_char : Char) :
    Option (Except ParseIntError Int × List Char) :=
  let s1 := source.tail
  let pr : Nat × Nat :=
    if first_char = '0' then
      match peek s1 with
      | 'b' => (2, 2)
      | 'o' => (2, 8)
      | 'x' => (2, 16)
      | _ => (0, 10)
    else (0, 10)
  let lo := pr.1
  let base := pr.2
  let s2 := if lo ≠ 0 then s1.tail else s1
  let s3 := s2.dropWhile fun c => c = '_' || (rustToDigit base c).isSome
  let c := peek s3
  if isIdContinue xidC c then
    some (.error (.invalidDigit c base), s3.dropWhile (isIdContinue xidC))
  else
    match rustToDigit base first_char with
    | none => none
    | some v =>
      let len := source.length - s3.length
      some (foldDigits base (Int.ofNat v) ((source.take len).drop lo), s3)

/-- The scanning loop of `Cursor::string_literal`: starting just after
the opening quote, consume until an unescaped closing quote, treating a
backslash followed by a backslash or a quote as a two-character escape.
Returns the number of characters consumed (closing quote included) and
the remaining input, or `none` when the end of input is reached first. -/
def stringScan : List Char → Option (Nat × List Char)
  | [] => none
  | '"' :: cs => some (1, cs)
  | '\\' :: c2 :: cs =>
    if c2 = '\\' || c2 = '"' then
      match stringScan cs with
      | some (n, rest) => some (n + 2, rest)
      | none => none
    else
      match stringScan (c2 :: cs) with
      | some (n, rest) => some (n + 1, rest)
      | none => none
  | _ :: cs =>
    match stringScan cs with
    | some (n, rest) => some (n + 1, rest)
    | none => none

/-- `Cursor::string_literal`.  `source` is the remaining input just
after the opening quote.  On a closed literal the contents are
`source[..token_length - 2]`.  On end of input the cursor is rewound to
`source` and advanced to the next newline; the contents are then
`source[..len]` with `len` the full token length, which counts the
opening quote: when no newline follows, `len` exceeds the length of
`source` and the slice panics (`none`); when a newline follows, the
slice picks up one character too many (the newline). -/
def stringLiteral (source : List Char) : Option (TokenInner × List Char) :=
  match stringScan source with
  | some (n, rest) => some (.stringLiteral (source.take (n - 1)) false, rest)
  | none =>
    let rest := source.dropWhile fun c => !(c = '\n')
    let len := 1 + (source.length - rest.length)
    if len ≤ source.length then some (.stringLiteral (source.take len) true, rest)
    else none

/-- The result of one `Cursor::next_token` call: end of input, a panic
inside the scanner, or a token classification together with the number
of characters consumed. -/
inductive NextTok where
  | eof
  | panicked
  | tok (inner : TokenInner) (consumed : Nat)
deriving DecidableEq, Repr

/-- `Cursor::next_token`, parametric in the two `XID` tables.  The match
arms follow the order of the source. -/
def nextToken (xidS xidC : Char → Bool) (s : List Char) : NextTok :=
  match s with
  | [] => .eof
  | first :: rest1 =>
    if rustIsWhitespace first then
      .tok .whitespace (s.length - (rest1.dropWhile rustIsWhitespace).length)
    else if isIdStart xidS first then
      let len := s.length - (rest1.dropWhile (isIdContinue xidC)).length
      .tok (.identifier (s.take len)) len
    else if '0' ≤ first ∧ first ≤ '9' then
      match number xidC s first with
      | none => .panicked
      | some (r, rest) => .tok (.intLiteral r) (s.length - rest.length)
    else if first = '"' then
      match stringLiteral rest1 with
      | none => .panicked
      | some (inner, rest) => .tok inner (s.length - rest.length)
    else if first = '/' then
      if peek rest1 = '/' then
        let len := s.length - (rest1.dropWhile (fun c => !(c = '\n'))).length
        .tok (.comment ((s.take len).drop 2)) len
      else .tok (.operator .div) 1
    else if first = '|' then .tok .pipe 1
    else if first = ',' then .tok .comma 1
    else if first = ':' then .tok .colon 1
    else if first = ';' then .tok .semicolon 1
    else if first = '(' then .tok (.openDelim .paren) 1
    else if first = '[' then .tok (.openDelim .bracket) 1
    else if first = '{' then .tok (.openDelim .brace) 1
    else if first = ')' then .tok (.closeDelim .paren) 1
    else if first = ']' then .tok (.closeDelim .bracket) 1
    else if first = '}' then .tok (.closeDelim .brace) 1
    else if first = '+' then .tok (.operator .plus) 1
    else if first = '-' then
      if peek rest1 = '>' then .tok (.operator .arrow) 2
      else .tok (.operator .minus) 1
    else if first = '*' then .tok (.operator .mul) 1
    else if first = '=' then
      if peek rest1 = '>' then .tok (.operator .fatArrow) 2
      else .tok (.operator .equals) 1
    else if first = '.' then .tok (.operator .dot) 1
    else if first = '%' then .tok (.operator .percent) 1
    else
      .tok .unrecognized (s.length - (rest1.dropWhile (isUnknown xidC)).length)

/-- Driving loop of the raw token stream: repeated `next_token` calls,
each building a span from the running position and the consumed length.
`fuel` bounds the number of iterations; every call consumes at least one
character, so the `fuel = 0` case is unreachable from `rawTokenize`,
which supplies `length + 1`.  `none` models a panic inside a call. -/
def rawTokenizeAux (xidS xidC : Char → Bool) : Nat → Nat → List Char → Option (List Token)
  | 0, _, _ => none
  | fuel + 1, pos, s =>
    match nextToken xidS xidC s with
    | .eof => some []
    | .panicked => none
    | .tok inner consumed =>
      match rawTokenizeAux xidS xidC fuel (pos + consumed) (s.drop consumed) with
      | none => none
      | some ts => some (⟨Span.new pos consumed, inner⟩ :: ts)

/-- The full raw token sequence of a file (whitespace tokens included),
as produced by repeated `Cursor::next_token` calls starting from
`Cursor::new`. -/
def rawTokenize (xidS xidC : Char → Bool) (input : SourceFile) : Option (List Token) :=
  rawTokenizeAux xidS xidC (input.src.length + 1) input.start_pos input.src

/-- Loop of the public `tokenize` iterator: whitespace tokens are
filtered, and the token following one is flagged as preceded by
whitespace; end of input directly after a whitespace token ends the
sequence.  Same fuel convention as `rawTokenizeAux`. -/
def tokenizeAux (xidS xidC : Char → Bool) : Nat → Nat → List Char → Option (List (Token × Bool))
  | 0, _, _ => none
  | fuel + 1, pos, s =>
    match nextToken xidS xidC s with
    | .eof => some []
    | .panicked => none
    | .tok inner c =>
      let t : Token := ⟨Span.new pos c, inner⟩
      if t.is_whitespace then
        match nextToken xidS xidC (s.drop c) with
        | .eof => some []
        | .panicked => none
        | .tok inner2 c2 =>
          match tokenizeAux xidS xidC fuel (pos + c + c2) ((s.drop c).drop c2) with
          | none => none
          | some ts => some ((⟨Span.new (pos + c) c2, inner2⟩, true) :: ts)
      else
        match tokenizeAux xidS xidC fuel (pos + c) (s.drop c) with
        | none => none
        | some ts => some ((t, false) :: ts)

/-- `tokenize` of lexer.rs: the public iterator over
`(Token, preceded-by-whitespace)` pairs for one source file. -/
def tokenize (xidS xidC : Char → Bool) (input : SourceFile) :
    Option (List (Token × Bool)) :=
  tokenizeAux xidS xidC (input.src.length + 1) input.start_pos input.src

/-- Modelled from the spec: the reconstruction procedure of the
span-fidelity sentence — concatenate `span_to_string` of every public
token, re-inserting a single space wherever the preceded-by-whitespace
marker indicates filtered whitespace. -/
def reconstructSpec (sm : SourceMap) (pairs : List (Token × Bool)) : List Char :=
  (pairs.map fun p =>
    (if p.2 then [' '] else []) ++ (sm.span_to_string p.1.span).getD []).flatten

/-- A text of `2 ^ 31` characters and no newline, used to drive the
global address space past 32 bits. -/
def bigText : List Char := List.replicate (2 ^ 31) 'a'

/-- The first loaded 2 GiB file. -/
def bigFileA : SourceFile := sourceFileOf "big1" bigText 0

/-- The second loaded 2 GiB file, placed one past the end of the first. -/
def bigFileB : SourceFile := sourceFileOf "big2" bigText (2 ^ 31 + 1)

/-- The source map holding the two 2 GiB files, exactly the state after
the two loads. -/
def bigMap : SourceMap := ⟨[bigFileA, bigFileB]⟩


/-! ## Helper lemmas -/

/-- Dropping a prefix cannot lengthen a list. -/
theorem length_dropWhile_le (p : α → Bool) (l : List α) :
    (l.dropWhile p).length ≤ l.length := by
  conv_rhs => rw [← List.takeWhile_append_dropWhile p l]
  rw [List.length_append]
  omega

/-- The scanning loop of the string literal consumes exactly the
characters it advances past: on success the consumed count and the
remaining input partition the input. -/
theorem stringScan_partition :
    ∀ (s : List Char) (n : Nat) (rest : List Char),
      stringScan s = some (n, rest) → rest.length + n = s.length := by
  intro s
  induction s using stringScan.induct with
  | case1 =>
    intro n rest h
    exact Option.noConfusion h
  | case2 cs =>
    intro n rest h
    simp only [stringScan, Option.some.injEq, Prod.mk.injEq] at h
    obtain ⟨h1, h2⟩ := h
    subst h1
    subst h2
    simp
  | case3 c2 cs hg n0 r0 hrec ih =>
    intro n rest h
    rw [stringScan.eq_3, if_pos hg, hrec] at h
    simp only [Option.some.injEq, Prod.mk.injEq] at h
    obtain ⟨h1, h2⟩ := h
    subst h1
    subst h2
    have := ih n0 r0 hrec
    simp only [List.length_cons]
    omega
  | case4 c2 cs hg hrec ih =>
    intro n rest h
    rw [stringScan.eq_3, if_pos hg, hrec] at h
    exact Option.noConfusion h
  | case5 c2 cs hg n0 r0 hrec ih =>
    intro n rest h
    rw [stringScan.eq_3, if_neg hg, hrec] at h
    simp only [Option.some.injEq, Prod.mk.injEq] at h
    obtain ⟨h1, h2⟩ := h
    subst h1
    subst h2
    have := ih n0 r0 hrec
    simp only [List.length_cons] at this ⊢
    omega
  | case6 c2 cs hg hrec ih =>
    intro n rest h
    rw [stringScan.eq_3, if_neg hg, hrec] at h
    exact Option.noConfusion h
  | case7 hd cs hne1 hne2 n0 r0 hrec ih =>
    intro n rest h
    rw [stringScan.eq_4 hd cs hne1 hne2, hrec] at h
    simp only [Option.some.injEq, Prod.mk.injEq] at h
    obtain ⟨h1, h2⟩ := h
    subst h1
    subst h2
    have := ih n0 r0 hrec
    simp only [List.length_cons]
    omega
  | case8 hd cs hne1 hne2 hrec ih =>
    intro n rest h
    rw [stringScan.eq_4 hd cs hne1 hne2, hrec] at h
    exact Option.noConfusion h

/-- The input remaining after `Cursor::string_literal` is within the
input the literal started from. -/
theorem stringLiteral_rest_le (source : List Char) (inner : TokenInner)
    (rest : List Char) (h : stringLiteral source = some (inner, rest)) :
    rest.length ≤ source.length := by
  rw [stringLiteral] at h
  cases hscan : stringScan source with
  | some pr =>
    obtain ⟨n0, r0⟩ := pr
    rw [hscan] at h
    simp only [Option.some.injEq, Prod.mk.injEq] at h
    obtain ⟨h1, h2⟩ := h
    subst h2
    have := stringScan_partition source n0 r0 hscan
    omega
  | none =>
    rw [hscan] at h
    dsimp only [] at h
    split at h
    · simp only [Option.some.injEq, Prod.mk.injEq] at h
      obtain ⟨h1, h2⟩ := h
      subst h2
      exact length_dropWhile_le _ _
    · exact Option.noConfusion h

/-- The input remaining after `Cursor::number` is within the input that
follows the first character. -/
theorem number_rest_le (xidC : Char → Bool) (source : List Char) (first : Char)
    (r : Except ParseIntError Int) (rest : List Char)
    (h : number xidC source first = some (r, rest)) :
    rest.length ≤ source.tail.length := by
  simp only [number] at h
  repeat' split at h
  all_goals
    first
    | exact Option.noConfusion h
    | (simp only [Option.some.injEq, Prod.mk.injEq] at h
       obtain ⟨h1, h2⟩ := h
       subst h2
       first
       | exact le_trans (length_dropWhile_le _ _) (le_trans (length_dropWhile_le _ _)
           (by simp only [List.length_tail]; omega))
       | exact le_trans (length_dropWhile_le _ _) (le_trans (length_dropWhile_le _ _)
           (le_refl _))
       | exact le_trans (length_dropWhile_le _ _) (by simp only [List.length_tail]; omega))

/-- A helper bound: a token arm that consumes the first character and a
run from the remainder consumes at least one and at most all remaining
characters. -/
theorem cons_sub_dropWhile_bounds (p : Char → Bool) (first : Char) (rest1 : List Char) :
    1 ≤ (first :: rest1).length - (rest1.dropWhile p).length ∧
    (first :: rest1).length - (rest1.dropWhile p).length ≤ (first :: rest1).length := by
  have hX := length_dropWhile_le p rest1
  simp only [List.length_cons]
  omega

/-- Characterization of `next_token` on nonempty input: it either
panics or produces a token that consumes at least one and at most all
of the remaining characters. -/
theorem nextToken_cons (xidS xidC : Char → Bool) (first : Char) (rest1 : List Char) :
    nextToken xidS xidC (first :: rest1) = .panicked ∨
    ∃ inner c, nextToken xidS xidC (first :: rest1) = .tok inner c ∧
      (1 ≤ c ∧ c ≤ (first :: rest1).length) := by
  simp only [nextToken]
  by_cases c1 : rustIsWhitespace first = true
  · simp only [if_pos c1]
    exact Or.inr ⟨_, _, rfl, cons_sub_dropWhile_bounds _ first rest1⟩
  simp only [if_neg c1]
  by_cases c2 : isIdStart xidS first = true
  · simp only [if_pos c2]
    exact Or.inr ⟨_, _, rfl, cons_sub_dropWhile_bounds _ first rest1⟩
  simp only [if_neg c2]
  by_cases c3 : '0' ≤ first ∧ first ≤ '9'
  · simp only [if_pos c3]
    cases hn : number xidC (first :: rest1) first with
    | none => simp only [hn]; exact Or.inl trivial
    | some pr =>
      obtain ⟨r, rest⟩ := pr
      simp only [hn]
      refine Or.inr ⟨_, _, rfl, ?_⟩
      have hb := number_rest_le xidC (first :: rest1) first r rest hn
      simp only [List.tail_cons] at hb
      simp only [List.length_cons]
      omega
  simp only [if_neg c3]
  by_cases c4 : first = '"'
  · simp only [if_pos c4]
    cases hn : stringLiteral rest1 with
    | none => simp only [hn]; exact Or.inl trivial
    | some pr =>
      obtain ⟨inner, rest⟩ := pr
      simp only [hn]
      refine Or.inr ⟨_, _, rfl, ?_⟩
      have hb := stringLiteral_rest_le rest1 inner rest hn
      simp only [List.length_cons]
      omega
  simp only [if_neg c4]
  by_cases c5 : first = '/'
  · simp only [if_pos c5]
    by_cases c5b : peek rest1 = '/'
    · simp only [if_pos c5b]
      exact Or.inr ⟨_, _, rfl, cons_sub_dropWhile_bounds _ first rest1⟩
    · simp only [if_neg c5b]
      exact Or.inr ⟨_, _, rfl, by simp only [List.length_cons]; omega⟩
  simp only [if_neg c5]
  by_cases c6 : first = '|'
  · simp only [if_pos c6]
    exact Or.inr ⟨_, _, rfl, by simp only [List.length_cons]; omega⟩
  simp only [if_neg c6]
  by_cases c7 : first = ','
  · simp only [if_pos c7]
    exact Or.inr ⟨_, _, rfl, by simp only [List.length_cons]; omega⟩
  simp only [if_neg c7]
  by_cases c8 : first = ':'
  · simp only [if_pos c8]
    exact Or.inr ⟨_, _, rfl, by simp only [List.length_cons]; omega⟩
  simp only [if_neg c8]
  by_cases c9 : first = ';'
  · simp only [if_pos c9]
    exact Or.inr ⟨_, _, rfl, by simp only [List.length_cons]; omega⟩
  simp only [if_neg c9]
  by_cases c10 : first = '('
  · simp only [if_pos c10]
    exact Or.inr ⟨_, _, rfl, by simp only [List.length_cons]; omega⟩
  simp only [if_neg c10]
  by_cases c11 : first = '['
  · simp only [if_pos c11]
    exact Or.inr ⟨_, _, rfl, by simp only [List.length_cons]; omega⟩
  simp only [if_neg c11]
  by_cases c12 : first = '{'
  · simp only [if_pos c12]
    exact Or.inr ⟨_, _, rfl, by simp only [List.length_cons]; omega⟩
  simp only [if_neg c12]
  by_cases c13 : first = ')'
  · simp only [if_pos c13]
    exact Or.inr ⟨_, _, rfl, by simp only [List.length_cons]; omega⟩
  simp only [if_neg c13]
  by_cases c14 : first = ']'
  · simp only [if_pos c14]
    exact Or.inr ⟨_, _, rfl, by simp only [List.length_cons]; omega⟩
  simp only [if_neg c14]
  by_cases c15 : first = '}'
  · simp only [if_pos c15]
    exact Or.inr ⟨_, _, rfl, by simp only [List.length_cons]; omega⟩
  simp only [if_neg c15]
  by_cases c16 : first = '+'
  · simp only [if_pos c16]
    exact Or.inr ⟨_, _, rfl, by simp only [List.length_cons]; omega⟩
  simp only [if_neg c16]
  by_cases c17 : first = '-'
  · simp only [if_pos c17]
    by_cases c17b : peek rest1 = '>'
    · simp only [if_pos c17b]
      cases rest1 with
      | nil => exact absurd c17b (by decide)
      | cons a l =>
        exact Or.inr ⟨_, _, rfl, by simp only [List.length_cons]; omega⟩
    · simp only [if_neg c17b]
      exact Or.inr ⟨_, _, rfl, by simp only [List.length_cons]; omega⟩
  simp only [if_neg c17]
  by_cases c18 : first = '*'
  · simp only [if_pos c18]
    exact Or.inr ⟨_, _, rfl, by simp only [List.length_cons]; omega⟩
  simp only [if_neg c18]
  by_cases c19 : first = '='
  · simp only [if_pos c19]
    by_cases c19b : peek rest1 = '>'
    · simp only [if_pos c19b]
      cases rest1 with
      | nil => exact absurd c19b (by decide)
      | cons a l =>
        exact Or.inr ⟨_, _, rfl, by simp only [List.length_cons]; omega⟩
    · simp only [if_neg c19b]
      exact Or.inr ⟨_, _, rfl, by simp only [List.length_cons]; omega⟩
  simp only [if_neg c19]
  by_cases c20 : first = '.'
  · simp only [if_pos c20]
    exact Or.inr ⟨_, _, rfl, by simp only [List.length_cons]; omega⟩
  simp only [if_neg c20]
  by_cases c21 : first = '%'
  · simp only [if_pos c21]
    exact Or.inr ⟨_, _, rfl, by simp only [List.length_cons]; omega⟩
  simp only [if_neg c21]
  exact Or.inr ⟨_, _, rfl, cons_sub_dropWhile_bounds _ first rest1⟩

/-- `next_token` reports the end of input only on empty input. -/
theorem nextToken_eof (xidS xidC : Char → Bool) (s : List Char)
    (h : nextToken xidS xidC s = .eof) : s = [] := by
  cases s with
  | nil => rfl
  | cons first rest1 =>
    rcases nextToken_cons xidS xidC first rest1 with hp | ⟨inner, c, ht, _⟩
    · rw [h] at hp; exact NextTok.noConfusion hp
    · rw [h] at ht; exact NextTok.noConfusion ht

/-- A `next_token` call never consumes more characters than remain. -/
theorem nextToken_le (xidS xidC : Char → Bool) (s : List Char) (inner : TokenInner)
    (c : Nat) (h : nextToken xidS xidC s = .tok inner c) : c ≤ s.length := by
  cases s with
  | nil => exact NextTok.noConfusion h
  | cons first rest1 =>
    rcases nextToken_cons xidS xidC first rest1 with hp | ⟨inner2, c2, ht, hb⟩
    · rw [h] at hp; exact NextTok.noConfusion hp
    · rw [h] at ht
      injection ht with h1 h2
      rw [h2]
      exact hb.2

/-- A `next_token` call that produces a token consumes at least one
character. -/
theorem nextToken_pos (xidS xidC : Char → Bool) (s : List Char) (inner : TokenInner)
    (c : Nat) (h : nextToken xidS xidC s = .tok inner c) : 1 ≤ c := by
  cases s with
  | nil => exact NextTok.noConfusion h
  | cons first rest1 =>
    rcases nextToken_cons xidS xidC first rest1 with hp | ⟨inner2, c2, ht, hb⟩
    · rw [h] at hp
      exact NextTok.noConfusion hp
    · rw [h] at ht
      injection ht with h1 h2
      rw [h2]
      exact hb.1

/-- The driving loop is insensitive to the fuel bound once the bound
exceeds the input length: every scanner call that produces a token
consumes at least one character, so the bound never runs out.  In
particular a `none` result of `rawTokenize` always comes from a
panicking scanner call, never from the bound. -/
theorem rawTokenizeAux_fuel (xidS xidC : Char → Bool) :
    ∀ fuel fuel2 pos s, s.length < fuel → s.length < fuel2 →
      rawTokenizeAux xidS xidC fuel pos s = rawTokenizeAux xidS xidC fuel2 pos s := by
  intro fuel
  induction fuel with
  | zero =>
    intro fuel2 pos s h1 h2
    omega
  | succ m ih =>
    intro fuel2 pos s h1 h2
    cases fuel2 with
    | zero => omega
    | succ m2 =>
      rw [rawTokenizeAux, rawTokenizeAux]
      cases hnt : nextToken xidS xidC s with
      | eof => rfl
      | panicked => rfl
      | tok inner c =>
        dsimp only []
        have hpos := nextToken_pos xidS xidC s inner c hnt
        have hle := nextToken_le xidS xidC s inner c hnt
        have hlen : (s.drop c).length = s.length - c := List.length_drop c s
        rw [ih m2 (pos + c) (s.drop c) (by omega) (by omega)]

/-- Tiling of the raw token stream: when scanning the suffix of `g`
that starts at `pos` completes without a panic, the emitted spans cover
that suffix exactly, in order, and stay within the bounds of `g`. -/
theorem rawTokenizeAux_tiles (xidS xidC : Char → Bool) (g : List Char) :
    ∀ fuel pos s ts, g.drop pos = s →
      rawTokenizeAux xidS xidC fuel pos s = some ts →
      ((ts.map fun t => (g.drop t.span.lo).take t.span.len).flatten = s ∧
        ∀ t ∈ ts, t.span.lo + t.span.len ≤ g.length) := by
  intro fuel
  induction fuel with
  | zero =>
    intro pos s ts hg h
    exact Option.noConfusion h
  | succ n ih =>
    intro pos s ts hg h
    rw [rawTokenizeAux] at h
    cases hnt : nextToken xidS xidC s with
    | eof =>
      rw [hnt] at h
      have hs : s = [] := nextToken_eof xidS xidC s hnt
      injection h with h2
      subst hs
      rw [← h2]
      exact ⟨rfl, by simp⟩
    | panicked =>
      rw [hnt] at h
      exact Option.noConfusion h
    | tok inner consumed =>
      rw [hnt] at h
      dsimp only [] at h
      cases hrec : rawTokenizeAux xidS xidC n (pos + consumed) (s.drop consumed) with
      | none => rw [hrec] at h; exact Option.noConfusion h
      | some ts2 =>
        rw [hrec] at h
        injection h with h2
        subst h2
        have hg2 : g.drop (pos + consumed) = s.drop consumed := by
          rw [← hg, List.drop_drop, Nat.add_comm]
        obtain ⟨ih1, ih2⟩ := ih (pos + consumed) (s.drop consumed) ts2 hg2 hrec
        have hne : s ≠ [] := by
          intro hs
          rw [hs] at hnt
          exact NextTok.noConfusion hnt
        have hple : pos < g.length := by
          by_contra hcon
          exact hne (hg ▸ List.drop_eq_nil_of_le (by omega))
        have hclen : consumed ≤ s.length := nextToken_le xidS xidC s inner consumed hnt
        have hslen : s.length = g.length - pos := by rw [← hg, List.length_drop]
        constructor
        · simp only [List.map_cons, List.flatten_cons, Span.new]
          rw [hg, ih1, List.take_append_drop]
        · intro t ht
          rcases List.mem_cons.mp ht with h | h
          · subst h
            simp only [Span.new]
            omega
          · exact ih2 t h

/-- `span_to_string` over a map holding a single file at start position
`0` renders exactly the addressed slice of the text, for any span within
bounds. -/
theorem span_to_string_single (p : String) (g : List Char) (sp : Span)
    (h : sp.lo + sp.len ≤ g.length) :
    SourceMap.span_to_string ⟨[sourceFileOf p g 0]⟩ sp =
      some ((g.drop sp.lo).take sp.len) := by
  simp [SourceMap.span_to_string, SourceMap.lookup_source_file, partitionPoint,
    sourceFileOf, h]

/-! ## Claims -/

/-- C1: the claim states that `tokenize` never panics on any valid
input, including a single malformed literal.  The code refutes it: on
the one-character input consisting of a lone double quote, the
recovery path of `Cursor::string_literal` slices `source[..len]` with
`len` one past the end of `source` (the length count includes the
opening quote, the slice starts after it), an out-of-bounds panic.
The second conjunct pins the failure to the scanner call itself
(`NextTok.panicked`), so the `none` is a panic, not an artifact of the
iteration bound. -/
theorem tokenize_panics_on_lone_quote :
    tokenize asciiXidStart asciiXidCont (sourceFileOf "f" ('"' :: []) 0) = none ∧
    nextToken asciiXidStart asciiXidCont ('"' :: []) = .panicked := by
  decide

/-- C2: the claim expects `foo(1, 0xFF)` to lex with `IntLiteral(Ok(1))`
for the decimal literal.  The code yields `Ok(11)` instead: the first
decimal digit seeds the accumulator and is then folded again, because
the fold slice `source[lo..len]` starts at `lo = 0` for decimal
literals.  The other five tokens, including `Ok(255)` for the hex
literal, come out as the claim states. -/
theorem foo_call_token_values :
    tokenize asciiXidStart asciiXidCont (sourceFileOf "f" ("foo(1, 0xFF)".toList) 0) =
      some [(⟨⟨0, 3⟩, .identifier ('f' :: 'o' :: 'o' :: [])⟩, false),
        (⟨⟨3, 1⟩, .openDelim .paren⟩, false),
        (⟨⟨4, 1⟩, .intLiteral (.ok 11)⟩, false),
        (⟨⟨5, 1⟩, .comma⟩, false),
        (⟨⟨7, 4⟩, .intLiteral (.ok 255)⟩, true),
        (⟨⟨11, 1⟩, .closeDelim .paren⟩, false)] := by
  decide

/-- C3: the claim states that `span_to_location` returns a 1-based line
and column for every offset inside a loaded file.  The code refutes it
for every offset on line 1: `line_number` returns `1` there, the index
`line - 2` into the newline table underflows `usize`, and the access
panics — modelled as `none` for offset `0` of the loaded file
`ab`, newline, `cd`. -/
theorem span_to_location_panics_on_line_one :
    (SourceMap.load_file ⟨[]⟩ "f" (.ok ("ab\ncd".toList))).1.span_to_location ⟨0, 1⟩ =
      none := by
  decide

/-- C4: the claim expects the input of a double quote followed by `abc`
(end of input, no closing quote) to lex as one `StringLiteral` with
contents `abc` and the unclosed flag set.  The code panics instead: the
recovery slice `source[..len]` uses the token length (which counts the
opening quote) against the text that starts after the quote, reading
one past the end of input.  The second conjunct pins the failure to the
scanner call itself. -/
theorem unterminated_string_panics :
    tokenize asciiXidStart asciiXidCont (sourceFileOf "f" ('"' :: 'a' :: 'b' :: 'c' :: []) 0) =
      none ∧
    nextToken asciiXidStart asciiXidCont ('"' :: 'a' :: 'b' :: 'c' :: []) = .panicked := by
  decide

theorem load_file_empty (p : String) (src : List Char) :
    SourceMap.load_file ⟨[]⟩ p (.ok src) =
      (⟨[sourceFileOf p src 0]⟩, .ok (sourceFileOf p src 0)) := by
  simp [SourceMap.load_file, SourceFile.new]

theorem load_file_step (files : List SourceFile) (f : SourceFile) (p : String)
    (src : List Char) (h : files.getLast? = some f)
    (hof : f.end_position + 1 < u32Limit) :
    SourceMap.load_file ⟨files⟩ p (.ok src) =
      (⟨files ++ [sourceFileOf p src (f.end_position + 1)]⟩,
        .ok (sourceFileOf p src (f.end_position + 1))) := by
  simp [SourceMap.load_file, h, hof, SourceFile.new]

theorem bigText_length : bigText.length = 2 ^ 31 := by
  rw [bigText]
  exact List.length_replicate _ _

theorem bigA_start : bigFileA.start_pos = 0 := rfl

theorem bigA_src : bigFileA.src = bigText := rfl

theorem bigB_start : bigFileB.start_pos = 2 ^ 31 + 1 := rfl

theorem bigB_src : bigFileB.src = bigText := rfl

theorem bigMap_eq : bigMap = ⟨[bigFileA, bigFileB]⟩ := rfl

theorem bigFileA_end : bigFileA.end_position = 2 ^ 31 := by
  rw [SourceFile.end_position, bigA_start, bigA_src, bigText_length]
  norm_num [u32Limit]

theorem bigFileB_end : bigFileB.end_position = 1 := by
  rw [SourceFile.end_position, bigB_start, bigB_src, bigText_length]
  norm_num [u32Limit]

/-- C5: the claim states that `load_file` fails with `OffsetOverflow`
whenever the computed start position would exceed the 32-bit limit.
The code only guards the final `+ 1` with `checked_add`; the addition
inside `end_position` is unchecked and wraps (release profile; a debug
build aborts there instead).  After two loads of `2 ^ 31` characters
each (both of which succeed), a third load is assigned the wrapped
start position `2` — overlapping the first file — instead of failing,
although the true start position `2 ^ 31 + 1 + 2 ^ 31 + 1` is past the
limit. -/
theorem load_file_misses_offset_overflow :
    SourceMap.load_file ⟨[]⟩ "big1" (.ok bigText) = (⟨[bigFileA]⟩, .ok bigFileA) ∧
    SourceMap.load_file ⟨[bigFileA]⟩ "big2" (.ok bigText) = (bigMap, .ok bigFileB) ∧
    (bigMap.load_file "big3" (.ok ('c' :: []))).2 = .ok (sourceFileOf "big3" ('c' :: []) 2) ∧
    u32Limit < bigFileB.start_pos + bigText.length + 1 := by
  have hofA : bigFileA.end_position + 1 < u32Limit := by
    rw [bigFileA_end]
    norm_num [u32Limit]
  have hofB : bigFileB.end_position + 1 < u32Limit := by
    rw [bigFileB_end]
    norm_num [u32Limit]
  refine ⟨load_file_empty "big1" bigText, ?_, ?_, ?_⟩
  · rw [load_file_step [bigFileA] bigFileA "big2" bigText rfl hofA, bigFileA_end]
    rfl
  · rw [bigMap_eq,
      load_file_step [bigFileA, bigFileB] bigFileB "big3" ('c' :: []) rfl hofB,
      bigFileB_end]
  · rw [bigB_start, bigText_length]
    norm_num [u32Limit]

/-- C6: after loading a 10-character file and then a 20-character file,
the second file starts at `11`, offset `10` resolves to the first file
and offset `11` to the second. -/
theorem two_files_start_positions_and_lookup :
    ((SourceMap.load_file ⟨[]⟩ "f1" (.ok ("0123456789".toList))).1.load_file "f2"
        (.ok ("abcdefghijklmnopqrst".toList))).1.files.map SourceFile.start_pos =
      (0 :: 11 :: []) ∧
    (((SourceMap.load_file ⟨[]⟩ "f1" (.ok ("0123456789".toList))).1.load_file "f2"
        (.ok ("abcdefghijklmnopqrst".toList))).1.lookup_source_file 10).map
        SourceFile.path = some "f1" ∧
    (((SourceMap.load_file ⟨[]⟩ "f1" (.ok ("0123456789".toList))).1.load_file "f2"
        (.ok ("abcdefghijklmnopqrst".toList))).1.lookup_source_file 11).map
        SourceFile.path = some "f2" := by
  decide

/-- C7: lexing `0xg1` produces a single `IntLiteral` token carrying
the error `InvalidDigit` for the character `g` at radix 16, spanning
all four characters — not a literal `0x` followed by an identifier. -/
theorem hex_invalid_digit_single_token :
    tokenize asciiXidStart asciiXidCont (sourceFileOf "f" ("0xg1".toList) 0) =
      some [(⟨⟨0, 4⟩, .intLiteral (.error (.invalidDigit 'g' 16))⟩, false)] := by
  decide

/-- C8 counterexample: the claim states that concatenating
`span_to_string` over the public token stream, re-inserting one space
per preceded-by-whitespace marker, reconstructs any input exactly.  On
the one-character input consisting of a single space, the stream is
empty (the trailing whitespace token is dropped together with its
marker), so the reconstruction is empty and differs from the input. -/
theorem span_fidelity_public_cex :
    tokenize asciiXidStart asciiXidCont (sourceFileOf "f" (' ' :: []) 0) = some [] ∧
    reconstructSpec ⟨[sourceFileOf "f" (' ' :: []) 0]⟩ [] = [] ∧
    (' ' :: [] : List Char) ≠ [] := by
  decide

/-- C8 amended: concatenating `span_to_string` over every token of the
raw scanner stream (whitespace tokens included), for any input on which
scanning completes without panicking, reconstructs the input exactly. -/
theorem span_fidelity_raw (xidS xidC : Char → Bool) (p : String) (g : List Char)
    (ts : List Token) (h : rawTokenize xidS xidC (sourceFileOf p g 0) = some ts) :
    (ts.map fun t =>
      (SourceMap.span_to_string ⟨[sourceFileOf p g 0]⟩ t.span).getD []).flatten = g := by
  have h0 : rawTokenizeAux xidS xidC (g.length + 1) 0 g = some ts := h
  obtain ⟨h1, h2⟩ := rawTokenizeAux_tiles xidS xidC g (g.length + 1) 0 g ts rfl h0
  have hmap : (ts.map fun t =>
      (SourceMap.span_to_string ⟨[sourceFileOf p g 0]⟩ t.span).getD []) =
      ts.map fun t => (g.drop t.span.lo).take t.span.len := by
    apply List.map_congr_left
    intro t ht
    rw [span_to_string_single p g t.span (h2 t ht)]
    rfl
  rw [hmap]
  exact h1

/-- Witness for the amended C8 theorem at the concrete input `a b`. -/
theorem span_fidelity_raw_witness :
    (([⟨⟨0, 1⟩, .identifier ('a' :: [])⟩, ⟨⟨1, 1⟩, .whitespace⟩,
        ⟨⟨2, 1⟩, .identifier ('b' :: [])⟩] : List Token).map fun t =>
      (SourceMap.span_to_string ⟨[sourceFileOf "f" ('a' :: ' ' :: 'b' :: []) 0]⟩
        t.span).getD []).flatten = 'a' :: ' ' :: 'b' :: [] :=
  span_fidelity_raw asciiXidStart asciiXidCont "f" ('a' :: ' ' :: 'b' :: []) _ (by decide)

/-- C9 counterexample: the claim states that a maximal run of
characters unrecognized by the lexer becomes a single `Unrecognized`
token.  The angle bracket is such a character (no token recognizes it),
yet the run exclusion list of `is_unknown` contains it, so the input of
two left angle brackets lexes as two one-character `Unrecognized`
tokens rather than one token of length two. -/
theorem unrecognized_run_not_batched :
    tokenize asciiXidStart asciiXidCont (sourceFileOf "f" ('<' :: '<' :: []) 0) =
      some [(⟨⟨0, 1⟩, .unrecognized⟩, false), (⟨⟨1, 1⟩, .unrecognized⟩, false)] := by
  decide

/-- C9 amended: when the first character reaches the fall-through arm
of `next_token` (it is none of: whitespace, identifier start, decimal
digit, quote, or one of the seventeen recognized punctuation
characters), the lexer emits exactly one `Unrecognized` token spanning
that character plus the maximal following run of `is_unknown`
characters — a predicate that also excludes the angle brackets. -/
theorem unrecognized_batches_unknown_run (xidS xidC : Char → Bool) (c : Char)
    (rest : List Char)
    (hw : rustIsWhitespace c = false)
    (hid : isIdStart xidS c = false)
    (hdig : ¬('0' ≤ c ∧ c ≤ '9'))
    (hpunct : c ≠ '"' ∧ c ≠ '/' ∧ c ≠ '|' ∧ c ≠ ',' ∧ c ≠ ':' ∧ c ≠ ';' ∧ c ≠ '(' ∧
      c ≠ '[' ∧ c ≠ '{' ∧ c ≠ ')' ∧ c ≠ ']' ∧ c ≠ '}' ∧ c ≠ '+' ∧ c ≠ '-' ∧ c ≠ '*' ∧
      c ≠ '=' ∧ c ≠ '.' ∧ c ≠ '%') :
    nextToken xidS xidC (c :: rest) =
      .tok .unrecognized (1 + (rest.takeWhile (isUnknown xidC)).length) := by
  obtain ⟨h1, h2, h3, h4, h5, h6, h7, h8, h9, h10, h11, h12, h13, h14, h15, h16, h17,
    h18⟩ := hpunct
  have hlen : (rest.takeWhile (isUnknown xidC)).length +
      (rest.dropWhile (isUnknown xidC)).length = rest.length := by
    conv_rhs => rw [← List.takeWhile_append_dropWhile (isUnknown xidC) rest]
    rw [List.length_append]
  simp only [nextToken, Bool.not_eq_true, hw, hid, if_neg hdig, if_neg h1, if_neg h2,
    if_neg h3, if_neg h4, if_neg h5, if_neg h6, if_neg h7, if_neg h8, if_neg h9,
    if_neg h10, if_neg h11, if_neg h12, if_neg h13, if_neg h14, if_neg h15,
    if_neg h16, if_neg h17, if_neg h18, Bool.false_eq_true, if_false]
  congr 1
  simp only [List.length_cons]
  omega

/-- Witness for the amended C9 theorem: a two-character run of commercial
at signs is consumed as one `Unrecognized` token. -/
theorem unrecognized_batches_unknown_run_witness :
    nextToken asciiXidStart asciiXidCont ('@' :: '@' :: 'a' :: []) =
      .tok .unrecognized
        (1 + (('@' :: 'a' :: []).takeWhile (isUnknown asciiXidCont)).length) :=
  unrecognized_batches_unknown_run asciiXidStart asciiXidCont '@' ('@' :: 'a' :: [])
    (by decide) (by decide) (by decide) (by decide)

/-- C10: `load_file` is atomic on failure — whenever it reports an
error (I/O or offset overflow), the collection of loaded files is
exactly what it was before the call. -/
theorem load_file_atomic_on_failure (sm : SourceMap) (p : String)
    (r : Except IoError (List Char)) (e : LoadError)
    (h : (sm.load_file p r).2 = .error e) : (sm.load_file p r).1 = sm := by
  rcases hl : sm.files.getLast? with _ | f
  · rcases hr : r with e0 | src
    · simp [SourceMap.load_file, hl, SourceFile.new, hr]
    · simp [SourceMap.load_file, hl, SourceFile.new, hr] at h
  · by_cases hof : f.end_position + 1 < u32Limit
    · rcases hr : r with e0 | src
      · simp [SourceMap.load_file, hl, hof, SourceFile.new, hr]
      · simp [SourceMap.load_file, hl, hof, SourceFile.new, hr] at h
    · simp [SourceMap.load_file, hl, hof]

/-- Witness for the C10 theorem: a failing read on an empty map leaves
the map empty. -/
theorem load_file_atomic_on_failure_witness :
    (SourceMap.load_file ⟨[]⟩ "p" (.error ⟨"boom"⟩)).1 = (⟨[]⟩ : SourceMap) :=
  load_file_atomic_on_failure ⟨[]⟩ "p" (.error ⟨"boom"⟩) (.io ⟨"boom"⟩) rfl
